import Mathlib

/-!
Verification of the enterprise data enhancer (`data_enhancer.py`).

Shallow embedding conventions:
* Numeric cell values are rationals (`ℚ`); an absent cell (pandas `NaN` /
  Python `None`) is `none` in an `Option ℚ`.
* Python truthiness of a numeric argument (`if net_profit and total_assets:`)
  is: present and nonzero.
* `int(x)` in Python truncates toward zero, modelled by `ratTrunc`.
* `str.replace(old, new)` replaces every non-overlapping occurrence of `old`
  left to right, modelled by `replaceAll` (for a nonempty `old`, which is how
  the source calls it).
-/

/-- One row of the per-industry benchmark table (`self.industry_benchmarks`
values in `EnterpriseDataEnhancer.__init__`). -/
structure Benchmark where
  roe : ℚ
  roa : ℚ
  debt_ratio : ℚ
  employee_per_million_revenue : ℚ
  profit_margin : ℚ
deriving DecidableEq, Repr

/-- The five fixed benchmark entries, keyed by group name, in source order. -/
def industry_benchmarks : List (String × Benchmark) :=
  [ ("商贸零售", ⟨12/100, 8/100, 45/100, 25, 8/100⟩),
    ("制造业",   ⟨15/100, 10/100, 55/100, 15, 12/100⟩),
    ("金融业",   ⟨18/100, 6/100, 85/100, 8, 25/100⟩),
    ("科技企业", ⟨20/100, 12/100, 35/100, 12, 18/100⟩),
    ("交通运输", ⟨10/100, 5/100, 60/100, 20, 6/100⟩) ]

/-- `self.industry_benchmarks.get(industry_group, self.industry_benchmarks["商贸零售"])`:
dictionary lookup with the retail entry as default. -/
def getBenchmark (industry_group : String) : Benchmark :=
  (List.lookup industry_group industry_benchmarks).getD ⟨12/100, 8/100, 45/100, 25, 8/100⟩

/-- `kw` occurs as a contiguous run inside `s` (character lists). -/
def isSubList (kw : List Char) : List Char → Bool
  | [] => kw.isEmpty
  | c :: rest => kw.isPrefixOf (c :: rest) || isSubList kw rest

/-- `kw in s` for Python strings: `kw` occurs as a contiguous substring of `s`. -/
def hasSub (s kw : String) : Bool :=
  isSubList kw.data s.data

/-- `EnterpriseDataEnhancer.classify_industry_group`: first-match keyword rules,
default group "商贸零售". -/
def classify_industry_group (industry_detail : String) : String :=
  if hasSub industry_detail "零售" || hasSub industry_detail "商贸" then "商贸零售"
  else if hasSub industry_detail "制造" || hasSub industry_detail "机械" ||
          hasSub industry_detail "化工" then "制造业"
  else if hasSub industry_detail "金融" || hasSub industry_detail "证券" ||
          hasSub industry_detail "银行" then "金融业"
  else if hasSub industry_detail "科技" || hasSub industry_detail "软件" ||
          hasSub industry_detail "互联网" then "科技企业"
  else if hasSub industry_detail "运输" || hasSub industry_detail "航运" ||
          hasSub industry_detail "物流" then "交通运输"
  else "商贸零售"

/-- All keywords appearing in the classifier's rules, in source order. -/
def keyword_rules : List String :=
  ["零售", "商贸", "制造", "机械", "化工", "金融", "证券", "银行",
   "科技", "软件", "互联网", "运输", "航运", "物流"]

/-- Python `int()` on a rational: truncation toward zero. -/
def ratTrunc (q : ℚ) : ℤ :=
  if 0 ≤ q then ⌊q⌋ else ⌈q⌉

/-- `EnterpriseDataEnhancer.estimate_employees`:
`max(int(revenue / 1_000_000 * employee_per_million), 10)`. -/
def estimate_employees (revenue : ℚ) (industry_group : String) : ℤ :=
  let benchmark := getBenchmark industry_group
  max (ratTrunc (revenue / 1000000 * benchmark.employee_per_million_revenue)) 10

/-- The employee estimator as the spec words it (claim C1): `round` of the
scaled revenue rather than truncation. Written from the spec for comparison
with `estimate_employees`; `round` is round-half-up on rationals. -/
def estimate_employees_as_specified (revenue : ℚ) (industry_group : String) : ℤ :=
  max (round (revenue / 1000000 * (getBenchmark industry_group).employee_per_million_revenue)) 10

/-- `EnterpriseDataEnhancer.estimate_profit`: `revenue * profit_margin`. -/
def estimate_profit (revenue : ℚ) (industry_group : String) : ℚ :=
  revenue * (getBenchmark industry_group).profit_margin

/-- Python truthiness of an optional numeric value: present and nonzero. -/
def truthy (x : Option ℚ) : Bool :=
  match x with
  | none => false
  | some v => v != 0

/-- The result dictionary of `estimate_financial_ratios`. -/
structure Ratios where
  roe : ℚ
  roa : ℚ
  debt_ratio : ℚ
  total_asset_turnover : ℚ
deriving DecidableEq, Repr

/-- Branch condition guarding the ROA division `net_profit / total_assets`
(line 101 of the source): both arguments truthy. The division executes
exactly when this holds. -/
def roa_division_reached (total_assets net_profit : Option ℚ) : Bool :=
  truthy net_profit && truthy total_assets

/-- Branch condition guarding the asset-turnover division
`revenue / total_assets` (line 110 of the source): both arguments truthy. -/
def turnover_division_reached (total_assets revenue : Option ℚ) : Bool :=
  truthy revenue && truthy total_assets

/-- `EnterpriseDataEnhancer.estimate_financial_ratios`. Divisions only occur
under truthiness guards, so every denominator is nonzero where a division is
reached; `Option.getD 0` only serves the guarded reads. -/
def estimate_financial_ratios (total_assets net_profit revenue : Option ℚ)
    (industry_group : String) : Ratios :=
  let benchmark := getBenchmark industry_group
  let roe :=
    if truthy net_profit && truthy total_assets then
      let estimated_net_assets := (total_assets.getD 0) * (1 - benchmark.debt_ratio)
      if 0 < estimated_net_assets then (net_profit.getD 0) / estimated_net_assets
      else benchmark.roe
    else benchmark.roe
  let roa :=
    if truthy net_profit && truthy total_assets then (net_profit.getD 0) / (total_assets.getD 0)
    else benchmark.roa
  let turnover :=
    if truthy revenue && truthy total_assets then (revenue.getD 0) / (total_assets.getD 0)
    else 1
  ⟨roe, roa, benchmark.debt_ratio, turnover⟩

/-- One row of the input table. The named columns are the ones the enhancer
reads or writes; `extras` carries the values of every other column of the
table, which the pass never touches. An absent cell is `none`. -/
structure Row where
  industry_type : String
  revenue : Option ℚ
  employee_count : Option ℚ
  net_profit : Option ℚ
  total_assets : Option ℚ
  extras : List (Option ℚ)
deriving DecidableEq, Repr

/-- The body of the per-row loop in `enhance_csv_data` (lines 134-151):
classify the row's industry, then fill `employee_count` when it is absent and
`revenue` is present, and fill `net_profit` when it is absent and `revenue`
is present. Returns the updated row and the two fill flags. -/
def enhanceRow (r : Row) : Row × Bool × Bool :=
  let industry_group := classify_industry_group r.industry_type
  let fillEc := r.employee_count.isNone && r.revenue.isSome
  let fillNp := r.net_profit.isNone && r.revenue.isSome
  let ecEstimate : ℚ := ((estimate_employees (r.revenue.getD 0) industry_group : ℤ) : ℚ)
  let r1 :=
    if fillEc then { r with employee_count := some ecEstimate }
    else r
  let r2 :=
    if fillNp then
      { r1 with net_profit := some (estimate_profit (r.revenue.getD 0) industry_group) }
    else r1
  (r2, fillEc, fillNp)

/-- The row produced by one pass of the loop body on `r`. -/
def enhancedRow (r : Row) : Row :=
  (enhanceRow r).1

/-- Appends a field name to the `enhanced_fields` list only if it is not
already there (`if col not in enhanced_fields: append`). -/
def addField (fields : List String) (name : String) : List String :=
  if name ∈ fields then fields else fields ++ [name]

/-- One iteration of the fill loop: update the accumulated rows and the
`enhanced_fields` bookkeeping with the outcome of `enhanceRow` on `r`. -/
def enhanceStep (acc : List Row × List String) (r : Row) : List Row × List String :=
  let step := enhanceRow r
  let f1 := if step.2.1 then addField acc.2 "employee_count" else acc.2
  let f2 := if step.2.2 then addField f1 "net_profit" else f1
  (acc.1 ++ [step.1], f2)

/-- The whole fill loop of `enhance_csv_data`: processes rows in order,
accumulating the updated rows and the `enhanced_fields` bookkeeping. -/
def enhancePass (rows : List Row) : List Row × List String :=
  rows.foldl enhanceStep ([], [])

/-- Number of absent cells in one column of the table, the literal
`df[col].isnull().sum()` of the source. -/
def missingCount (col : Row → Option ℚ) (rows : List Row) : ℕ :=
  rows.countP (fun r => (col r).isNone)

/-- The enhancement log built by `enhance_csv_data`: per-column missing
counts taken before and after the fill loop by literally counting absent
cells, the enhanced-fields list, and the record total. -/
structure EnhanceLog where
  original_missing_employee_count : ℕ
  original_missing_net_profit : ℕ
  original_missing_revenue : ℕ
  original_missing_total_assets : ℕ
  enhanced_fields : List String
  final_missing_employee_count : ℕ
  final_missing_net_profit : ℕ
  final_missing_revenue : ℕ
  final_missing_total_assets : ℕ
  total_records : ℕ
deriving DecidableEq, Repr

/-- `EnterpriseDataEnhancer.enhance_csv_data` without the file I/O at the
boundary: count missing cells per column, run the fill loop, recount, and
return the enhanced table with its log. -/
def enhance_csv_data (rows : List Row) : List Row × EnhanceLog :=
  let p := enhancePass rows
  (p.1,
   { original_missing_employee_count := missingCount Row.employee_count rows
     original_missing_net_profit := missingCount Row.net_profit rows
     original_missing_revenue := missingCount Row.revenue rows
     original_missing_total_assets := missingCount Row.total_assets rows
     enhanced_fields := p.2
     final_missing_employee_count := missingCount Row.employee_count p.1
     final_missing_net_profit := missingCount Row.net_profit p.1
     final_missing_revenue := missingCount Row.revenue p.1
     final_missing_total_assets := missingCount Row.total_assets p.1
     total_records := rows.length })

/-- Worker for `replaceAll`: scan left to right, replacing each
non-overlapping occurrence of `old`. The fuel argument only serves
structural recursion; one unit is spent per emitted chunk, so a fuel of
`s.length` always suffices for a nonempty `old`. -/
def replaceAllGo (old new : List Char) : Nat → List Char → List Char
  | _, [] => []
  | 0, s => s
  | fuel + 1, c :: rest =>
    if old ≠ [] ∧ old.isPrefixOf (c :: rest) then
      new ++ replaceAllGo old new fuel ((c :: rest).drop old.length)
    else
      c :: replaceAllGo old new fuel rest

/-- Python `str.replace(old, new)` on character lists for a nonempty `old`:
every non-overlapping occurrence of `old` in `s`, scanned left to right, is
replaced by `new`. (The source only calls it with the nonempty pattern
".csv"; an empty `old` is treated as matching nowhere here.) -/
def replaceAll (old new s : List Char) : List Char :=
  replaceAllGo old new s.length s

/-- `output_file.replace('.csv', '_enhancement_report.md')` from `main`
(line 241): the companion report path. -/
def report_file_of (output_file : String) : String :=
  ⟨replaceAll ".csv".data "_enhancement_report.md".data output_file.data⟩

/-! ### Helper lemmas -/

theorem enhancedRow_frame (r : Row) :
    (enhancedRow r).industry_type = r.industry_type ∧
    (enhancedRow r).revenue = r.revenue ∧
    (enhancedRow r).total_assets = r.total_assets ∧
    (enhancedRow r).extras = r.extras := by
  obtain ⟨it, rev, ec, np, ta, ex⟩ := r
  cases rev <;> cases ec <;> cases np <;>
    simp [enhancedRow, enhanceRow]

theorem enhancedRow_ec_some (r : Row) (v : ℚ) (h : r.employee_count = some v) :
    (enhancedRow r).employee_count = some v := by
  obtain ⟨it, rev, ec, np, ta, ex⟩ := r
  subst h
  cases rev <;> cases np <;> simp [enhancedRow, enhanceRow]

theorem enhancedRow_np_some (r : Row) (v : ℚ) (h : r.net_profit = some v) :
    (enhancedRow r).net_profit = some v := by
  obtain ⟨it, rev, ec, np, ta, ex⟩ := r
  subst h
  cases rev <;> cases ec <;> simp [enhancedRow, enhanceRow]

theorem enhancedRow_no_revenue (r : Row) (h : r.revenue = none) :
    (enhancedRow r).employee_count = r.employee_count ∧
    (enhancedRow r).net_profit = r.net_profit := by
  obtain ⟨it, rev, ec, np, ta, ex⟩ := r
  subst h
  cases ec <;> cases np <;> simp [enhancedRow, enhanceRow]

theorem enhancedRow_ec_fill (r : Row) (v : ℚ) (hrev : r.revenue = some v)
    (hec : r.employee_count = none) :
    (enhancedRow r).employee_count =
      some ((estimate_employees v (classify_industry_group r.industry_type) : ℤ) : ℚ) := by
  obtain ⟨it, rev, ec, np, ta, ex⟩ := r
  subst hrev; subst hec
  cases np <;> simp [enhancedRow, enhanceRow]

theorem enhancedRow_np_fill (r : Row) (v : ℚ) (hrev : r.revenue = some v)
    (hnp : r.net_profit = none) :
    (enhancedRow r).net_profit =
      some (estimate_profit v (classify_industry_group r.industry_type)) := by
  obtain ⟨it, rev, ec, np, ta, ex⟩ := r
  subst hrev; subst hnp
  cases ec <;> simp [enhancedRow, enhanceRow]

theorem enhanceRow_enhancedRow (r : Row) :
    enhanceRow (enhancedRow r) = (enhancedRow r, false, false) := by
  obtain ⟨it, rev, ec, np, ta, ex⟩ := r
  cases rev <;> cases ec <;> cases np <;> simp [enhancedRow, enhanceRow]

theorem foldl_enhanceStep_fst (rows : List Row) (acc : List Row × List String) :
    (List.foldl enhanceStep acc rows).1 = acc.1 ++ rows.map enhancedRow := by
  induction rows generalizing acc with
  | nil => simp
  | cons r rs ih =>
      rw [List.foldl_cons, ih]
      simp [enhanceStep, enhancedRow]

theorem enhancePass_fst (rows : List Row) :
    (enhancePass rows).1 = rows.map enhancedRow := by
  simp [enhancePass, foldl_enhanceStep_fst]

theorem foldl_enhanceStep_snd_noflags (rows : List Row) (acc : List Row × List String)
    (h : ∀ r ∈ rows, (enhanceRow r).2 = (false, false)) :
    (List.foldl enhanceStep acc rows).2 = acc.2 := by
  induction rows generalizing acc with
  | nil => rfl
  | cons r rs ih =>
      rw [List.foldl_cons, ih _ (fun x hx => h x (List.mem_cons_of_mem _ hx))]
      have hr := h r (List.mem_cons_self _ _)
      simp [enhanceStep, hr]

theorem getBenchmark_retail :
    getBenchmark "商贸零售" = ⟨12/100, 8/100, 45/100, 25, 8/100⟩ := rfl

theorem getBenchmark_epm_pos (g : String) :
    0 < (getBenchmark g).employee_per_million_revenue := by
  simp only [getBenchmark, industry_benchmarks, List.lookup]
  repeat' split
  all_goals simp_all

theorem replaceAll_ext_stem (new stem : List Char) (h : ('.' : Char) ∉ stem) :
    replaceAll ".csv".data new (stem ++ ".csv".data) = stem ++ new := by
  rw [show ".csv".data = ['.', 'c', 's', 'v'] from rfl]
  have key : ∀ st : List Char, ('.' : Char) ∉ st →
      replaceAllGo ['.', 'c', 's', 'v'] new (st.length + 4) (st ++ ['.', 'c', 's', 'v']) =
        st ++ new := by
    intro st
    induction st with
    | nil =>
        intro _
        show replaceAllGo ['.', 'c', 's', 'v'] new 4 ['.', 'c', 's', 'v'] = [] ++ new
        rw [show replaceAllGo ['.', 'c', 's', 'v'] new 4 ['.', 'c', 's', 'v'] =
              new ++ replaceAllGo ['.', 'c', 's', 'v'] new 3 [] from rfl]
        rw [show replaceAllGo ['.', 'c', 's', 'v'] new 3 ([] : List Char) = [] from rfl]
        simp
    | cons c cs ih =>
        intro hmem
        have hc : c ≠ '.' := fun hcc => hmem (by simp [hcc])
        have hcs : ('.' : Char) ∉ cs := fun hx => hmem (List.mem_cons_of_mem _ hx)
        have hbc : (('.' : Char) == c) = false := beq_eq_false_iff_ne.mpr (Ne.symm hc)
        have hcond : ¬(['.', 'c', 's', 'v'] ≠ [] ∧
            List.isPrefixOf ['.', 'c', 's', 'v'] (c :: (cs ++ ['.', 'c', 's', 'v'])) = true) := by
          rintro ⟨-, hpf⟩
          simp [List.isPrefixOf, hbc] at hpf
        show replaceAllGo ['.', 'c', 's', 'v'] new (cs.length + 1 + 4)
              (c :: (cs ++ ['.', 'c', 's', 'v'])) = c :: (cs ++ new)
        rw [show cs.length + 1 + 4 = (cs.length + 4) + 1 by omega]
        simp only [replaceAllGo]
        rw [if_neg hcond, ih hcs]
  rw [replaceAll]
  have hl : (stem ++ ['.', 'c', 's', 'v']).length = stem.length + 4 := by simp
  rw [hl]
  exact key stem h

/-! ### Claim theorems -/

/-- Claim C1, counterexample: the claim says the estimate rounds the scaled
revenue, but the source applies `int()` (truncation toward zero). At revenue
430000 in the retail group the scaled value is 10.75: the code returns 10
while the claimed rounding formula gives 11. -/
theorem C1_counterexample :
    estimate_employees 430000 "商贸零售" = 10 ∧
    estimate_employees_as_specified 430000 "商贸零售" = 11 := by
  constructor
  · simp only [estimate_employees, getBenchmark_retail]
    rw [show (430000 : ℚ) / 1000000 *
          (Benchmark.mk (12/100) (8/100) (45/100) 25 (8/100)).employee_per_million_revenue =
          43/4 by norm_num]
    rw [show ratTrunc (43/4 : ℚ) = 10 by
      rw [ratTrunc, if_pos (by norm_num)]
      rw [Int.floor_eq_iff] <;> norm_num]
    omega
  · simp only [estimate_employees_as_specified, getBenchmark_retail]
    rw [show (430000 : ℚ) / 1000000 *
          (Benchmark.mk (12/100) (8/100) (45/100) 25 (8/100)).employee_per_million_revenue =
          43/4 by norm_num]
    rw [round_eq]
    rw [show (⌊(43/4 : ℚ) + 1/2⌋ : ℤ) = 11 by rw [Int.floor_eq_iff] <;> norm_num]
    omega

/-- Claim C1, amended: for every revenue value and every industry group,
`estimate_employees` returns `max(int(revenue / 1_000_000 *
group.employees_per_million_revenue), 10)` where `int` truncates toward
zero — equal to the floor of the scaled revenue when revenue is nonnegative —
and the result is floored at 10 employees, with exactly 10 whenever
revenue ≤ 0. -/
theorem C1_estimate_employees_truncates (revenue : ℚ) (industry_group : String) :
    10 ≤ estimate_employees revenue industry_group ∧
    (0 ≤ revenue → estimate_employees revenue industry_group =
      max ⌊revenue / 1000000 * (getBenchmark industry_group).employee_per_million_revenue⌋ 10) ∧
    (revenue ≤ 0 → estimate_employees revenue industry_group = 10) := by
  refine ⟨le_max_right _ _, fun h => ?_, fun h => ?_⟩
  · simp only [estimate_employees]
    congr 1
    rw [ratTrunc, if_pos]
    exact mul_nonneg (by positivity) (le_of_lt (getBenchmark_epm_pos industry_group))
  · simp only [estimate_employees]
    have hs : revenue / 1000000 * (getBenchmark industry_group).employee_per_million_revenue ≤ 0 :=
      mul_nonpos_of_nonpos_of_nonneg (by linarith [h])
        (le_of_lt (getBenchmark_epm_pos industry_group))
    have ht : ratTrunc
        (revenue / 1000000 * (getBenchmark industry_group).employee_per_million_revenue) ≤ 0 := by
      rw [ratTrunc]
      split
      · exact Int.floor_nonpos hs
      · exact Int.ceil_le.mpr (by exact_mod_cast hs)
    omega

/-- Claim C1, witness: the amended theorem applied at revenue 430000 in the
retail group (nonnegative case) and at revenue -5 in the manufacturing group
(nonpositive case). -/
theorem C1_witness :
    estimate_employees 430000 "商贸零售" =
      max ⌊(430000 : ℚ) / 1000000 * (getBenchmark "商贸零售").employee_per_million_revenue⌋ 10 ∧
    estimate_employees (-5) "制造业" = 10 :=
  ⟨(C1_estimate_employees_truncates 430000 "商贸零售").2.1 (by norm_num),
   (C1_estimate_employees_truncates (-5) "制造业").2.2 (by norm_num)⟩

/-- Claim C2, counterexample: the claim says return-on-assets equals
`net_profit / total_assets` whenever both are present regardless of their
values; but with `net_profit = 0` (present) and `total_assets = 4` the
Python truthiness guard fails and the code returns the benchmark ROA 8/100
rather than 0/4 = 0. -/
theorem C2_counterexample :
    (estimate_financial_ratios (some 4) (some 0) none "商贸零售").roa =
      (getBenchmark "商贸零售").roa ∧
    (estimate_financial_ratios (some 4) (some 0) none "商贸零售").roa ≠ (0 : ℚ) / 4 := by
  constructor
  · simp [estimate_financial_ratios, truthy]
  · have h : (estimate_financial_ratios (some 4) (some 0) none "商贸零售").roa =
        (getBenchmark "商贸零售").roa := by
      simp [estimate_financial_ratios, truthy]
    rw [h, getBenchmark_retail]
    norm_num

/-- Claim C2, amended: return-on-assets equals `net_profit / total_assets`
whenever both inputs are present AND nonzero (the guard is Python
truthiness, not mere presence), and equals the group ROA whenever either
input is absent or either present value is zero. -/
theorem C2_roa_requires_nonzero (total_assets net_profit revenue : Option ℚ) (g : String) :
    (∀ a b, total_assets = some a → net_profit = some b → a ≠ 0 → b ≠ 0 →
      (estimate_financial_ratios total_assets net_profit revenue g).roa = b / a) ∧
    ((total_assets = none ∨ net_profit = none ∨ total_assets = some 0 ∨ net_profit = some 0) →
      (estimate_financial_ratios total_assets net_profit revenue g).roa =
        (getBenchmark g).roa) := by
  constructor
  · rintro a b rfl rfl ha hb
    simp [estimate_financial_ratios, truthy, ha, hb]
  · rintro (rfl | rfl | rfl | rfl) <;> simp [estimate_financial_ratios, truthy]

/-- Claim C2, witness: the amended theorem applied at present nonzero inputs
(4 and 2) and at an absent `total_assets`. -/
theorem C2_witness :
    (estimate_financial_ratios (some 4) (some 2) none "商贸零售").roa = 2 / 4 ∧
    (estimate_financial_ratios none (some 2) none "商贸零售").roa =
      (getBenchmark "商贸零售").roa :=
  ⟨(C2_roa_requires_nonzero (some 4) (some 2) none "商贸零售").1 4 2 rfl rfl
      (by norm_num) (by norm_num),
   (C2_roa_requires_nonzero none (some 2) none "商贸零售").2 (Or.inl rfl)⟩

/-- Claim C3: the enhancement pass is the row-wise map of the loop body, and
per row it fills `employee_count` (via `estimate_employees` with the row's
classified group) exactly when `employee_count` is absent and `revenue` is
present, fills `net_profit` (via `estimate_profit`) exactly when `net_profit`
is absent and `revenue` is present, and leaves a missing field missing when
`revenue` is absent. -/
theorem C3_fill_exactly_when_missing (rows : List Row) :
    (enhance_csv_data rows).1 = rows.map enhancedRow ∧
    ∀ r : Row,
      (∀ v, r.revenue = some v → r.employee_count = none →
        (enhancedRow r).employee_count =
          some ((estimate_employees v (classify_industry_group r.industry_type) : ℤ) : ℚ)) ∧
      (∀ v, r.revenue = some v → r.net_profit = none →
        (enhancedRow r).net_profit =
          some (estimate_profit v (classify_industry_group r.industry_type))) ∧
      (r.employee_count ≠ none → (enhancedRow r).employee_count = r.employee_count) ∧
      (r.net_profit ≠ none → (enhancedRow r).net_profit = r.net_profit) ∧
      (r.revenue = none →
        (enhancedRow r).employee_count = r.employee_count ∧
        (enhancedRow r).net_profit = r.net_profit) := by
  refine ⟨enhancePass_fst rows, fun r => ⟨?_, ?_, ?_, ?_, ?_⟩⟩
  · intro v hrev hec
    exact enhancedRow_ec_fill r v hrev hec
  · intro v hrev hnp
    exact enhancedRow_np_fill r v hrev hnp
  · intro hec
    obtain ⟨v, hv⟩ := Option.ne_none_iff_exists'.mp hec
    rw [enhancedRow_ec_some r v hv, hv]
  · intro hnp
    obtain ⟨v, hv⟩ := Option.ne_none_iff_exists'.mp hnp
    rw [enhancedRow_np_some r v hv, hv]
  · exact enhancedRow_no_revenue r

/-- Claim C3, witness: a retail row with revenue 100000 and both fillable
fields absent gets `employee_count` 10 (the floor of 10) and `net_profit`
8000 = 100000 · 0.08. -/
theorem C3_witness :
    (enhancedRow ⟨"零售店", some 100000, none, none, none, []⟩).employee_count = some 10 ∧
    (enhancedRow ⟨"零售店", some 100000, none, none, none, []⟩).net_profit = some 8000 := by
  constructor
  · rw [((C3_fill_exactly_when_missing []).2
        ⟨"零售店", some 100000, none, none, none, []⟩).1 100000 rfl rfl]
    have hg : classify_industry_group "零售店" = "商贸零售" := by decide
    rw [hg]
    norm_num [estimate_employees, getBenchmark, industry_benchmarks, List.lookup, ratTrunc]
  · rw [((C3_fill_exactly_when_missing []).2
        ⟨"零售店", some 100000, none, none, none, []⟩).2.1 100000 rfl rfl]
    have hg : classify_industry_group "零售店" = "商贸零售" := by decide
    rw [hg]
    norm_num [estimate_profit, getBenchmark, industry_benchmarks, List.lookup]

/-- Claim C4: the pass writes only `employee_count` and `net_profit` — per
row, the industry label, revenue, total assets and all other columns are
returned unchanged, and an `employee_count` or `net_profit` value that was
already present is returned unchanged. -/
theorem C4_frame_only_ec_np (rows : List Row) (r : Row) :
    (enhance_csv_data rows).1 = rows.map enhancedRow ∧
    (enhancedRow r).industry_type = r.industry_type ∧
    (enhancedRow r).revenue = r.revenue ∧
    (enhancedRow r).total_assets = r.total_assets ∧
    (enhancedRow r).extras = r.extras ∧
    (∀ v, r.employee_count = some v → (enhancedRow r).employee_count = some v) ∧
    (∀ v, r.net_profit = some v → (enhancedRow r).net_profit = some v) :=
  ⟨enhancePass_fst rows, (enhancedRow_frame r).1, (enhancedRow_frame r).2.1,
   (enhancedRow_frame r).2.2.1, (enhancedRow_frame r).2.2.2,
   fun v hv => enhancedRow_ec_some r v hv, fun v hv => enhancedRow_np_some r v hv⟩

/-- Claim C4, witness: a fully populated row passes through verbatim. -/
theorem C4_witness :
    (enhancedRow ⟨"制造公司", some 5, some 7, some 9, some 11, [some 13]⟩).revenue = some 5 ∧
    (enhancedRow ⟨"制造公司", some 5, some 7, some 9, some 11, [some 13]⟩).employee_count =
      some 7 ∧
    (enhancedRow ⟨"制造公司", some 5, some 7, some 9, some 11, [some 13]⟩).net_profit = some 9 ∧
    (enhancedRow ⟨"制造公司", some 5, some 7, some 9, some 11, [some 13]⟩).total_assets =
      some 11 ∧
    (enhancedRow ⟨"制造公司", some 5, some 7, some 9, some 11, [some 13]⟩).extras = [some 13] :=
  ⟨(C4_frame_only_ec_np [] _).2.2.1, (C4_frame_only_ec_np [] _).2.2.2.2.2.1 7 rfl,
   (C4_frame_only_ec_np [] _).2.2.2.2.2.2 9 rfl, (C4_frame_only_ec_np [] _).2.2.2.1,
   (C4_frame_only_ec_np [] _).2.2.2.2.1⟩

/-- Claim C5: the enhancer is idempotent — running `enhance_csv_data` on its
own output returns the table unchanged and reports an empty
`enhanced_fields` list (this holds for every input, in particular whenever
the first run closed all fillable gaps). -/
theorem C5_enhancer_idempotent (rows : List Row) :
    (enhance_csv_data ((enhance_csv_data rows).1)).1 = (enhance_csv_data rows).1 ∧
    ((enhance_csv_data ((enhance_csv_data rows).1)).2).enhanced_fields = [] := by
  have hfst : ∀ rs : List Row, (enhance_csv_data rs).1 = rs.map enhancedRow :=
    fun rs => enhancePass_fst rs
  constructor
  · rw [hfst, hfst, List.map_map]
    apply List.map_congr_left
    intro r _
    show enhancedRow (enhancedRow r) = enhancedRow r
    rw [enhancedRow, enhanceRow_enhancedRow]
  · show (enhancePass ((enhance_csv_data rows).1)).2 = []
    rw [hfst]
    rw [enhancePass]
    rw [foldl_enhanceStep_snd_noflags]
    rintro r hr
    obtain ⟨x, -, rfl⟩ := List.mem_map.mp hr
    exact congrArg Prod.snd (enhanceRow_enhancedRow x)

/-- Claim C6: the recorded per-column missing counts are literal counts of
absent cells at their respective points in time; after the pass they are ≤
the before-counts for the two fillable columns and exactly equal for every
other column (revenue, total assets, all extra columns, and the industry
label column, which is passed through unchanged). -/
theorem C6_missing_count_accounting (rows : List Row) :
    (enhance_csv_data rows).2.final_missing_employee_count ≤
      (enhance_csv_data rows).2.original_missing_employee_count ∧
    (enhance_csv_data rows).2.final_missing_net_profit ≤
      (enhance_csv_data rows).2.original_missing_net_profit ∧
    (enhance_csv_data rows).2.final_missing_revenue =
      (enhance_csv_data rows).2.original_missing_revenue ∧
    (enhance_csv_data rows).2.final_missing_total_assets =
      (enhance_csv_data rows).2.original_missing_total_assets ∧
    ((enhance_csv_data rows).1).map Row.extras = rows.map Row.extras ∧
    ((enhance_csv_data rows).1).map Row.industry_type = rows.map Row.industry_type ∧
    (enhance_csv_data rows).2.original_missing_employee_count =
      missingCount Row.employee_count rows ∧
    (enhance_csv_data rows).2.final_missing_employee_count =
      missingCount Row.employee_count ((enhance_csv_data rows).1) ∧
    (enhance_csv_data rows).2.original_missing_net_profit =
      missingCount Row.net_profit rows ∧
    (enhance_csv_data rows).2.final_missing_net_profit =
      missingCount Row.net_profit ((enhance_csv_data rows).1) := by
  have hfst : (enhance_csv_data rows).1 = rows.map enhancedRow := enhancePass_fst rows
  have hpass : (enhancePass rows).1 = rows.map enhancedRow := enhancePass_fst rows
  refine ⟨?_, ?_, ?_, ?_, ?_, ?_, rfl, ?_, rfl, ?_⟩
  · show missingCount Row.employee_count (enhancePass rows).1 ≤
        missingCount Row.employee_count rows
    rw [hpass, missingCount, missingCount, List.countP_map]
    apply List.countP_mono_left
    intro r _ hmono
    cases hec : r.employee_count with
    | none => simp
    | some v =>
        exfalso
        simp only [Function.comp] at hmono
        rw [enhancedRow_ec_some r v hec] at hmono
        simp at hmono
  · show missingCount Row.net_profit (enhancePass rows).1 ≤ missingCount Row.net_profit rows
    rw [hpass, missingCount, missingCount, List.countP_map]
    apply List.countP_mono_left
    intro r _ hmono
    cases hnp : r.net_profit with
    | none => simp
    | some v =>
        exfalso
        simp only [Function.comp] at hmono
        rw [enhancedRow_np_some r v hnp] at hmono
        simp at hmono
  · show missingCount Row.revenue (enhancePass rows).1 = missingCount Row.revenue rows
    rw [hpass, missingCount, missingCount, List.countP_map]
    apply List.countP_congr
    intro r _
    simp only [Function.comp]
    rw [(enhancedRow_frame r).2.1]
  · show missingCount Row.total_assets (enhancePass rows).1 =
        missingCount Row.total_assets rows
    rw [hpass, missingCount, missingCount, List.countP_map]
    apply List.countP_congr
    intro r _
    simp only [Function.comp]
    rw [(enhancedRow_frame r).2.2.1]
  · rw [hfst, List.map_map]
    apply List.map_congr_left
    intro r _
    exact (enhancedRow_frame r).2.2.2
  · rw [hfst, List.map_map]
    apply List.map_congr_left
    intro r _
    exact (enhancedRow_frame r).1
  · show missingCount Row.employee_count (enhancePass rows).1 =
        missingCount Row.employee_count ((enhance_csv_data rows).1)
    rfl
  · show missingCount Row.net_profit (enhancePass rows).1 =
        missingCount Row.net_profit ((enhance_csv_data rows).1)
    rfl

/-- Claim C7: return-on-equity equals
`net_profit / (total_assets * (1 - group.debt_ratio))` when both inputs are
present and nonzero and that denominator is positive, falls back to the
group ROE when the denominator is ≤ 0, and equals the group ROE when either
input is absent. -/
theorem C7_roe_guarded (total_assets net_profit revenue : Option ℚ) (g : String) :
    (∀ a b, total_assets = some a → net_profit = some b → a ≠ 0 → b ≠ 0 →
      (0 < a * (1 - (getBenchmark g).debt_ratio) →
        (estimate_financial_ratios total_assets net_profit revenue g).roe =
          b / (a * (1 - (getBenchmark g).debt_ratio))) ∧
      (a * (1 - (getBenchmark g).debt_ratio) ≤ 0 →
        (estimate_financial_ratios total_assets net_profit revenue g).roe =
          (getBenchmark g).roe)) ∧
    ((total_assets = none ∨ net_profit = none) →
      (estimate_financial_ratios total_assets net_profit revenue g).roe =
        (getBenchmark g).roe) := by
  constructor
  · rintro a b rfl rfl ha hb
    constructor
    · intro hden
      simp [estimate_financial_ratios, truthy, ha, hb, if_pos hden]
    · intro hden
      simp [estimate_financial_ratios, truthy, ha, hb, if_neg (not_lt.mpr hden)]
  · rintro (rfl | rfl) <;> simp [estimate_financial_ratios, truthy]

/-- Claim C7, witness: with assets 100 and profit 10 in the retail group the
denominator 100 · (1 − 0.45) = 55 is positive, so ROE is 10/55; with
`total_assets` absent the group ROE is returned. -/
theorem C7_witness :
    (estimate_financial_ratios (some 100) (some 10) none "商贸零售").roe =
      10 / (100 * (1 - (getBenchmark "商贸零售").debt_ratio)) ∧
    (estimate_financial_ratios none (some 10) none "商贸零售").roe =
      (getBenchmark "商贸零售").roe :=
  ⟨((C7_roe_guarded (some 100) (some 10) none "商贸零售").1 100 10 rfl rfl
      (by norm_num) (by norm_num)).1
      (by rw [getBenchmark_retail]; norm_num),
   (C7_roe_guarded none (some 10) none "商贸零售").2 (Or.inl rfl)⟩

/-- Claim C8: the classifier is a deterministic function of the label — equal
labels classify equally — and every label matching no keyword rule, the empty
label included, maps to the default group "商贸零售". -/
theorem C8_classifier_default (l1 l2 : String) (h : l1 = l2) :
    classify_industry_group l1 = classify_industry_group l2 ∧
    ((∀ kw ∈ keyword_rules, hasSub l1 kw = false) →
      classify_industry_group l1 = "商贸零售") ∧
    classify_industry_group "" = "商贸零售" := by
  refine ⟨by rw [h], fun hk => ?_, by decide⟩
  simp only [keyword_rules, List.mem_cons, List.not_mem_nil, forall_eq_or_imp] at hk
  obtain ⟨h1, h2, h3, h4, h5, h6, h7, h8, h9, h10, h11, h12, h13, h14, -⟩ := hk
  simp [classify_industry_group, h1, h2, h3, h4, h5, h6, h7, h8, h9, h10, h11, h12, h13, h14]

/-- Claim C8, witness: the theorem applied to the unrecognized label "abc"
(which matches no keyword) and to the empty label. -/
theorem C8_witness :
    classify_industry_group "abc" = classify_industry_group "abc" ∧
    classify_industry_group "abc" = "商贸零售" ∧
    classify_industry_group "" = "商贸零售" :=
  ⟨(C8_classifier_default "abc" "abc" rfl).1,
   (C8_classifier_default "abc" "abc" rfl).2.1 (by decide),
   (C8_classifier_default "abc" "abc" rfl).2.2⟩

/-- Claim C9, counterexample: the report path is built with `str.replace`,
which replaces every occurrence of ".csv", not only the trailing extension.
For the output path "a.csv.csv" the claim predicts
"a.csv_enhancement_report.md" but the code yields
"a_enhancement_report.md_enhancement_report.md". -/
theorem C9_counterexample :
    report_file_of "a.csv.csv" = "a_enhancement_report.md_enhancement_report.md" ∧
    report_file_of "a.csv.csv" ≠ "a.csv_enhancement_report.md" := by
  constructor
  · decide
  · decide

/-- Claim C9, amended: the report path is the output path with every
occurrence of ".csv" replaced by "_enhancement_report.md"; in the common
case where the path is `stem ++ ".csv"` and the stem contains no '.', this
coincides with replacing the trailing extension, leaving the rest of the
path intact. -/
theorem C9_report_path_replace_every (stem : List Char) (h : ('.' : Char) ∉ stem) :
    report_file_of ⟨stem ++ ".csv".data⟩ = ⟨stem ++ "_enhancement_report.md".data⟩ :=
  congrArg String.mk (replaceAll_ext_stem "_enhancement_report.md".data stem h)

/-- Claim C9, witness: the amended theorem applied to the dot-free stem
"out". -/
theorem C9_witness : report_file_of "out.csv" = "out_enhancement_report.md" :=
  C9_report_path_replace_every ['o', 'u', 't'] (by decide)

/-- Claim C10, counterexample: the claim asserts that for some input with
`total_assets` present and equal to zero (and `net_profit` or `revenue`
present) the ROA or asset-turnover division is reached with a zero
denominator. It is not: the branch conditions are Python truthiness checks,
and a present zero `total_assets` is falsy, so neither division's guard can
hold. -/
theorem C10_counterexample :
    ¬ ∃ np rev : Option ℚ, (truthy np = true ∨ truthy rev = true) ∧
      (roa_division_reached (some 0) np = true ∨
       turnover_division_reached (some 0) rev = true) := by
  rintro ⟨np, rev, -, h | h⟩ <;>
    simp [roa_division_reached, turnover_division_reached, truthy] at h

/-- Claim C10, amended: the ROA and asset-turnover divisions are guarded by
truthiness (nonzero) checks, not mere presence checks — whenever
`total_assets` is absent or zero, neither division is reached and the code
returns the benchmark ROA and the default turnover 1.0. -/
theorem C10_no_zero_denominator (total_assets net_profit revenue : Option ℚ) (g : String)
    (h : total_assets = none ∨ total_assets = some 0) :
    roa_division_reached total_assets net_profit = false ∧
    turnover_division_reached total_assets revenue = false ∧
    (estimate_financial_ratios total_assets net_profit revenue g).roa = (getBenchmark g).roa ∧
    (estimate_financial_ratios total_assets net_profit revenue g).total_asset_turnover = 1 := by
  rcases h with rfl | rfl <;>
    simp [roa_division_reached, turnover_division_reached, estimate_financial_ratios, truthy]

/-- Claim C10, witness: the amended theorem applied at `total_assets = 0`
with `net_profit` 5 and `revenue` 3 present in the manufacturing group. -/
theorem C10_witness :
    roa_division_reached (some 0) (some 5) = false ∧
    turnover_division_reached (some 0) (some 3) = false ∧
    (estimate_financial_ratios (some 0) (some 5) (some 3) "制造业").roa =
      (getBenchmark "制造业").roa ∧
    (estimate_financial_ratios (some 0) (some 5) (some 3) "制造业").total_asset_turnover = 1 :=
  C10_no_zero_denominator (some 0) (some 5) (some 3) "制造业" (Or.inr rfl)
